import Mathlib

/-!
Verification of the permit text-extraction and row-parsing pipeline of the
`fields` repository (`src/utils/summarize_permit.py` and `src/utils/helpers.py`).

The Python code is shallowly embedded:
* strings are Lean `String`s (lists of characters); the `str.strip`,
  `str.split(sep)` and `int(...)` builtins are modelled over their ASCII
  behaviour (the documents handled by the program are ASCII);
* the two `re.match` calls are modelled with Mathlib's verified
  `RegularExpression` type: each Python pattern is transcribed node by node,
  and `re.match` (match anchored at the start, not at the end) is the
  `matchPre` prefix matcher defined below;
* fallible code returns `Except PyErr`, where `PyErr` distinguishes the
  `IndexError` / `ValueError` / `KeyError` conditions the source can raise.
-/

/-- Python error conditions raised by the embedded code. -/
inductive PyErr where
  | indexError
  | valueError
  | keyError
deriving DecidableEq, Repr

/-- The ASCII whitespace characters: Python's `str.strip` default set and the
ASCII content of the regex class `\s`. -/
def isPySpace (c : Char) : Bool :=
  c = ' ' || c = '\t' || c = '\n' || c = '\r' || c = '\x0b' || c = '\x0c'

/-- Strip `isPySpace` characters from both ends, as `str.strip()` does. -/
def stripChars (l : List Char) : List Char :=
  ((l.dropWhile isPySpace).reverse.dropWhile isPySpace).reverse

/-- Model of Python `s.strip()`. -/
def pyStrip (s : String) : String := ⟨stripChars s.data⟩

/-- Split on every occurrence of `sep`, keeping empty pieces, as Python
`str.split(sep)` with an explicit one-character separator does.
`splitOnChar sep [] = [[]]`, matching `"".split(sep) == [""]`. -/
def splitOnChar (sep : Char) : List Char → List (List Char)
  | [] => [[]]
  | c :: cs =>
    if c = sep then [] :: splitOnChar sep cs
    else
      match splitOnChar sep cs with
      | [] => [[c]]
      | r :: rs => (c :: r) :: rs

/-- Model of Python `s.split(sep)` for the one-character separators the source
uses (`","`, `" "`, `":"`, `"\n"`). -/
def pySplit (s : String) (sep : Char) : List String :=
  (splitOnChar sep s.data).map (fun cs => ⟨cs⟩)

/-- Model of Python `l[i]` on a list: the value, or `IndexError`.
(The source never uses negative indices.) -/
def pyGet {α : Type} (l : List α) (i : Nat) : Except PyErr α :=
  match l[i]? with
  | some x => .ok x
  | none => .error .indexError

/-- The ten ASCII digits. -/
def digitChars : List Char := "0123456789".data

/-- Decimal value of an ASCII digit string. -/
def digitsToNat (l : List Char) : Nat :=
  l.foldl (fun a c => a * 10 + (c.toNat - 48)) 0

/-- A nonempty all-digit string, or `ValueError`. -/
def pyIntDigits (l : List Char) : Except PyErr Nat :=
  if l.all digitChars.contains && !l.isEmpty then .ok (digitsToNat l)
  else .error .valueError

/-- Model of Python `int(s)` restricted to its ASCII behaviour: surrounding
whitespace is stripped, an optional sign is accepted, and anything that is not
then a nonempty digit string raises `ValueError`. (Underscore digit grouping
and non-ASCII decimal digits, which the source never feeds to `int`, are not
modelled.) -/
def pyInt (s : String) : Except PyErr Int :=
  match stripChars s.data with
  | [] => .error .valueError
  | c :: rest =>
    if c = '+' then (pyIntDigits rest).map (fun n => (n : Int))
    else if c = '-' then (pyIntDigits rest).map (fun n => -(n : Int))
    else (pyIntDigits (c :: rest)).map (fun n => (n : Int))

/-! ### The two regular expressions of `_extract_basic_summary`

`date_time_pattern` transcribes
`^[A-Za-z]{3}, [A-Za-z]{3} \d{1,2}, \d{4} \d{1,2}:\d{2} (?:AM|PM)(?: [A-Za-z]{3}, [A-Za-z]{3} \d{1,2}, \d{4} \d{1,2}:\d{2} (?:AM|PM))*\s`
and `field_name_pattern` transcribes `^[A-Za-z\s]+ \(Athletic Field Use\)`,
with the character classes `[A-Za-z]`, `\d`, `\s` read over ASCII. -/

abbrev RE := RegularExpression Char

/-- A character class: any one character from the list. -/
def anyOf (l : List Char) : RE :=
  l.foldr (fun c r => RegularExpression.char c + r) 0

/-- A string literal inside a pattern. -/
def litR : List Char → RE
  | [] => 1
  | c :: cs => RegularExpression.char c * litR cs

/-- `X+` for a character class `X`. -/
def rep1 (l : List Char) : RE := anyOf l * (anyOf l).star

/-- `X?` (used for the second digit of `\d{1,2}`). -/
def optR (r : RE) : RE := 1 + r

def letterChars : List Char :=
  "ABCDEFGHIJKLMNOPQRSTUVWXYZabcdefghijklmnopqrstuvwxyz".data

def wsChars : List Char := [' ', '\t', '\n', '\r', '\x0b', '\x0c']

/-- `[A-Za-z]{3}`. -/
def alpha3 : RE := anyOf letterChars * (anyOf letterChars * anyOf letterChars)

/-- `\d{1,2}`. -/
def d12 : RE := anyOf digitChars * optR (anyOf digitChars)

/-- `\d{2}`. -/
def d2 : RE := anyOf digitChars * anyOf digitChars

/-- `\d{4}`. -/
def d4 : RE := d2 * d2

/-- `(?:AM|PM)`. -/
def ampm : RE := litR "AM".data + litR "PM".data

/-- One timestamp:
`[A-Za-z]{3}, [A-Za-z]{3} \d{1,2}, \d{4} \d{1,2}:\d{2} (?:AM|PM)`. -/
def stampCore : RE :=
  alpha3 * (litR ", ".data * (alpha3 * (litR " ".data * (d12 * (litR ", ".data *
    (d4 * (litR " ".data * (d12 * (litR ":".data * (d2 * (litR " ".data * ampm)))))))))))

/-- `date_time_pattern` from `summarize_permit.py` line 138. -/
def date_time_pattern : RE :=
  stampCore * ((litR " ".data * stampCore).star * anyOf wsChars)

/-- `field_name_pattern` from `summarize_permit.py` line 141. -/
def field_name_pattern : RE :=
  rep1 (letterChars ++ wsChars) * litR " (Athletic Field Use)".data

/-- Model of Python `re.match(pattern, s)` viewed as a boolean: `re.match`
anchors at the start of the string only, so it succeeds exactly when some
prefix of `s` belongs to the pattern's language. -/
def matchPre (r : RE) : List Char → Bool
  | [] => r.matchEpsilon
  | c :: cs => r.matchEpsilon || matchPre (r.deriv c) cs

/-- The test `re.match(date_time_pattern, line)` of line 160. -/
def isDateTimeLine (s : String) : Bool := matchPre date_time_pattern s.data

/-- The test `re.match(field_name_pattern, line)` of line 165. -/
def isFieldNameLine (s : String) : Bool := matchPre field_name_pattern s.data

/-! ### The extractor `_extract_basic_summary` -/

/-- The result dictionary of `_extract_basic_summary`: the flat slot list, the
field-name list, and the per-field slot map (a Python `dict`, modelled as an
insertion-ordered association list with unique keys). -/
structure ExtractionResult where
  date_time_slots : List String
  field_names : List String
  field_date_time_slots : List (String × List String)
deriving DecidableEq, Repr

/-- The in-progress state of the line scan. -/
structure ExtractState where
  current_field_name : Option String
  field_date_time_slots : List (String × List String)
  date_time_slots : List String
  field_names : List String
deriving DecidableEq, Repr

/-- `d[k]` on the dict model: first (unique) binding of `k`, if any. -/
def lookupKey (d : List (String × List String)) (k : String) : Option (List String) :=
  match d with
  | [] => none
  | (k', v) :: t => if k' = k then some v else lookupKey t k

/-- `d[k] = v` on the dict model: overwrite in place, preserving insertion
order, or append a new binding. -/
def setKey (d : List (String × List String)) (k : String) (v : List String) :
    List (String × List String) :=
  match d with
  | [] => [(k, v)]
  | (k', v') :: t => if k' = k then (k, v) :: t else (k', v') :: setKey t k v

/-- One iteration of the `for line in lines` loop of `_extract_basic_summary`
(lines 151-168). `field_date_time_slots[current_field_name]` with
`current_field_name = None` raises `KeyError` in Python (`None` is never a
key); the exception aborts the whole call, so the state is discarded and the
error is returned directly. -/
def stepLine (max_length : Int) (st : ExtractState) (rawLine : String) :
    Except PyErr ExtractState :=
  let line := pyStrip rawLine
  if line = "" then .ok st
  else if isDateTimeLine line && decide ((st.date_time_slots.length : Int) < max_length) then
    match st.current_field_name with
    | none => .error .keyError
    | some k =>
      match lookupKey st.field_date_time_slots k with
      | none => .error .keyError
      | some v =>
        .ok { st with
              date_time_slots := st.date_time_slots ++ [line],
              field_date_time_slots := setKey st.field_date_time_slots k (v ++ [line]) }
  else if isFieldNameLine line && decide ((st.field_names.length : Int) < max_length) then
    .ok { st with
          field_names := st.field_names ++ [line],
          field_date_time_slots := setKey st.field_date_time_slots line [],
          current_field_name := some line }
  else .ok st

/-- The whole `for` loop. -/
def runLines (max_length : Int) : ExtractState → List String → Except PyErr ExtractState
  | st, [] => .ok st
  | st, l :: ls =>
    match stepLine max_length st l with
    | .error e => .error e
    | .ok st' => runLines max_length st' ls

/-- `_extract_basic_summary(text, max_length)` from `summarize_permit.py`. -/
def _extract_basic_summary (text : String) (max_length : Int) :
    Except PyErr ExtractionResult :=
  match runLines max_length ⟨none, [], [], []⟩ (pySplit text '\n') with
  | .error e => .error e
  | .ok st => .ok ⟨st.date_time_slots, st.field_names, st.field_date_time_slots⟩

/-- The spec's name for the extractor interface. -/
def extract (text : String) (max_length : Int) : Except PyErr ExtractionResult :=
  _extract_basic_summary text max_length

/-! ### The row parser of `helpers.py` -/

/-- `extract_date(elm1, elm2)` from `helpers.py` lines 55-66. -/
def extract_date (elm1 elm2 : String) : Except PyErr String := do
  let parts := pySplit (pyStrip elm2) ' '
  let p0 ← pyGet parts 0
  return pyStrip elm1 ++ ", " ++ p0

/-- `extract_time(elm1)` from `helpers.py` lines 68-84.  In the `"PM"` branch
the Python expression `str(int(time_parts[0]) + 12) + ":" + time_parts[1]`
evaluates `int(time_parts[0])` before indexing `time_parts[1]`, so a
non-numeric hour raises `ValueError` before a missing minute raises
`IndexError`; the monadic order below preserves that. -/
def extract_time (elm1 : String) : Except PyErr String := do
  let parts := pySplit (pyStrip elm1) ' '
  let p2 ← pyGet parts 2
  if p2 = "PM" then
    let p1 ← pyGet parts 1
    let time_parts := pySplit p1 ':'
    let t0 ← pyGet time_parts 0
    let n ← pyInt t0
    let t1 ← pyGet time_parts 1
    return toString (n + 12) ++ ":" ++ t1
  else
    pyGet parts 1

/-- `extract_cost(elm1)` from `helpers.py` lines 86-96. -/
def extract_cost (elm1 : String) : Except PyErr String := do
  let parts := pySplit (pyStrip elm1) ' '
  pyGet parts 4

/-- The row dictionary built by `parse_spreadsheet_row`; the Python keys
`"day"`, `"date"`, `"start"`, `"end"`, `"cost"`, `"issued-date"` become the
fields below. -/
structure ParsedRow where
  day : String
  date : String
  start : String
  «end» : String
  cost : String
  issued_date : String
deriving DecidableEq, Repr

/-- `parse_spreadsheet_row(row_data, issued_date)` from `helpers.py`
lines 98-121, with the source's left-to-right evaluation order. -/
def parse_spreadsheet_row (row_data issued_date : String) : Except PyErr ParsedRow := do
  let elements := pySplit row_data ','
  let e0 ← pyGet elements 0
  let e1 ← pyGet elements 1
  let e2 ← pyGet elements 2
  let datev ← extract_date e1 e2
  let startv ← extract_time e2
  let e4 ← pyGet elements 4
  let endv ← extract_time e4
  let costv ← extract_cost e4
  return { day := pyStrip e0, date := datev, start := startv, «end» := endv,
           cost := costv, issued_date := issued_date }

/-! ### Auxiliary executable predicates used in the claim statements -/

deriving instance DecidableEq for Except

/-- Whether an `Except` computation raised. -/
def isError {α : Type} : Except PyErr α → Bool
  | .error _ => true
  | .ok _ => false

/-- Scan for an occurrence of `"AM"` or `"PM"` immediately followed by a
whitespace character. -/
def hasMarkerWs : List Char → Bool
  | a :: b :: c :: rest =>
    (((a = 'A' || a = 'P') && b = 'M') && isPySpace c) || hasMarkerWs (b :: c :: rest)
  | _ => false

/-- The characterization asserted by the spec for field-name classification,
written from the spec's words (not from the source): the whole line is one or
more letters/spaces followed by exactly the literal `" (Athletic Field Use)"`,
with nothing after it. -/
def fieldExactPerSpec (s : String) : Bool :=
  let lit := " (Athletic Field Use)".data
  let cs := s.data
  decide (lit.length + 1 ≤ cs.length) &&
  decide (cs.drop (cs.length - lit.length) = lit) &&
  (cs.take (cs.length - lit.length)).all (letterChars ++ wsChars).contains

/-! ### Correctness of the prefix matcher -/

open RegularExpression in
theorem matchEpsilon_iff_nil_mem (r : RE) : r.matchEpsilon = true ↔ [] ∈ r.matches' := by
  have h := rmatch_iff_matches' r []
  exact h

open RegularExpression in
theorem mem_deriv_iff (r : RE) (a : Char) (x : List Char) :
    x ∈ (r.deriv a).matches' ↔ a :: x ∈ r.matches' := by
  rw [← rmatch_iff_matches', ← rmatch_iff_matches']
  exact Iff.rfl

theorem matchPre_iff (s : List Char) (r : RE) :
    matchPre r s = true ↔ ∃ p q, p ++ q = s ∧ p ∈ r.matches' := by
  induction s generalizing r with
  | nil =>
    simp only [matchPre, matchEpsilon_iff_nil_mem]
    constructor
    · intro h; exact ⟨[], [], rfl, h⟩
    · rintro ⟨p, q, hpq, hp⟩
      have hp0 : p = [] := by
        cases p with
        | nil => rfl
        | cons c cs => simp at hpq
      rw [hp0] at hp; exact hp
  | cons c cs ih =>
    simp only [matchPre, Bool.or_eq_true, matchEpsilon_iff_nil_mem, ih]
    constructor
    · rintro (h | ⟨p, q, hpq, hp⟩)
      · exact ⟨[], c :: cs, rfl, h⟩
      · exact ⟨c :: p, q, by rw [← hpq]; rfl, (mem_deriv_iff r c p).mp hp⟩
    · rintro ⟨p, q, hpq, hp⟩
      cases p with
      | nil =>
        exact Or.inl hp
      | cons b p' =>
        have hb : b = c := by
          have := congrArg (fun l => l.head?) hpq
          simpa using this
        subst hb
        refine Or.inr ⟨p', q, ?_, (mem_deriv_iff r b p').mpr hp⟩
        have := congrArg (fun l => l.tail) hpq
        simpa using this

/-! ### Languages of the pattern building blocks -/

open RegularExpression in
theorem anyOf_matches (l : List Char) (x : List Char) :
    x ∈ (anyOf l).matches' ↔ ∃ c, c ∈ l ∧ x = [c] := by
  induction l with
  | nil => simp [anyOf, matches'_zero]
  | cons c t ih =>
    simp only [anyOf, List.foldr] at ih ⊢
    rw [matches'_add, Language.mem_add, matches'_char, ih]
    constructor
    · rintro (h | ⟨d, hd, rfl⟩)
      · exact ⟨c, List.mem_cons_self c t, h⟩
      · exact ⟨d, List.mem_cons_of_mem c hd, rfl⟩
    · rintro ⟨d, hd, rfl⟩
      rcases List.mem_cons.mp hd with h | h
      · subst h; exact Or.inl rfl
      · exact Or.inr ⟨d, h, rfl⟩

open RegularExpression in
theorem litR_matches (w : List Char) (x : List Char) :
    x ∈ (litR w).matches' ↔ x = w := by
  induction w generalizing x with
  | nil => simp [litR, matches'_epsilon, Language.mem_one]
  | cons c t ih =>
    simp only [litR]
    rw [matches'_mul, Language.mem_mul]
    constructor
    · rintro ⟨a, ha, b, hb, rfl⟩
      rw [matches'_char, Set.mem_singleton_iff] at ha
      subst ha
      rw [ih] at hb
      rw [hb]
      rfl
    · rintro rfl
      exact ⟨[c], by rw [matches'_char]; rfl, t, (ih t).mpr rfl, rfl⟩

open RegularExpression in
theorem star_anyOf_matches (l : List Char) (x : List Char) :
    x ∈ ((anyOf l).star).matches' ↔ ∀ c ∈ x, c ∈ l := by
  rw [matches'_star, Language.mem_kstar]
  constructor
  · rintro ⟨L, rfl, hL⟩
    intro c hc
    rcases List.mem_flatten.mp hc with ⟨y, hy, hcy⟩
    rcases (anyOf_matches l y).mp (hL y hy) with ⟨d, hd, rfl⟩
    rcases List.mem_singleton.mp hcy with rfl
    exact hd
  · intro h
    refine ⟨x.map (fun c => [c]), ?_, ?_⟩
    · induction x with
      | nil => rfl
      | cons c t iht =>
        simp only [List.map, List.flatten]
        rw [← iht (fun d hd => h d (List.mem_cons_of_mem c hd))]
        rfl
    · intro y hy
      rcases List.mem_map.mp hy with ⟨c, hc, rfl⟩
      exact (anyOf_matches l [c]).mpr ⟨c, h c hc, rfl⟩

open RegularExpression in
theorem rep1_matches (l : List Char) (x : List Char) :
    x ∈ (rep1 l).matches' ↔ x ≠ [] ∧ ∀ c ∈ x, c ∈ l := by
  simp only [rep1]
  rw [matches'_mul, Language.mem_mul]
  constructor
  · rintro ⟨a, ha, b, hb, rfl⟩
    rcases (anyOf_matches l a).mp ha with ⟨c, hc, rfl⟩
    rw [star_anyOf_matches] at hb
    refine ⟨by simp, ?_⟩
    intro d hd
    rcases List.mem_cons.mp hd with h | h
    · subst h; exact hc
    · exact hb d h
  · rintro ⟨hne, h⟩
    cases x with
    | nil => exact absurd rfl hne
    | cons c t =>
      refine ⟨[c], (anyOf_matches l [c]).mpr ⟨c, h c (List.mem_cons_self c t), rfl⟩,
        t, (star_anyOf_matches l t).mpr (fun d hd => h d (List.mem_cons_of_mem c hd)), rfl⟩

open RegularExpression in
theorem ampm_matches (x : List Char) :
    x ∈ ampm.matches' ↔ x = ['A', 'M'] ∨ x = ['P', 'M'] := by
  simp only [ampm]
  rw [matches'_add, Language.mem_add, litR_matches, litR_matches]

theorem mem_wsChars_iff (c : Char) : c ∈ wsChars ↔ isPySpace c = true := by
  simp only [wsChars, isPySpace, List.mem_cons, List.not_mem_nil, or_false,
    Bool.or_eq_true, decide_eq_true_eq]
  tauto

open RegularExpression in
theorem ends_mul (P Q : RE)
    (hq : ∀ x ∈ Q.matches', ∃ v, x = v ++ ['A', 'M'] ∨ x = v ++ ['P', 'M']) :
    ∀ x ∈ (P * Q).matches', ∃ v, x = v ++ ['A', 'M'] ∨ x = v ++ ['P', 'M'] := by
  intro x hx
  rw [matches'_mul, Language.mem_mul] at hx
  rcases hx with ⟨a, _, b, hb, rfl⟩
  rcases hq b hb with ⟨v, h | h⟩
  · exact ⟨a ++ v, Or.inl (by rw [h, List.append_assoc])⟩
  · exact ⟨a ++ v, Or.inr (by rw [h, List.append_assoc])⟩

theorem stampCore_ends :
    ∀ x ∈ stampCore.matches', ∃ v, x = v ++ ['A', 'M'] ∨ x = v ++ ['P', 'M'] := by
  have h0 : ∀ x ∈ ampm.matches', ∃ v, x = v ++ ['A', 'M'] ∨ x = v ++ ['P', 'M'] := by
    intro x hx
    rcases (ampm_matches x).mp hx with h | h
    · exact ⟨[], Or.inl h⟩
    · exact ⟨[], Or.inr h⟩
  exact ends_mul _ _ (ends_mul _ _ (ends_mul _ _ (ends_mul _ _ (ends_mul _ _
    (ends_mul _ _ (ends_mul _ _ (ends_mul _ _ (ends_mul _ _ (ends_mul _ _
    (ends_mul _ _ (ends_mul _ _ h0)))))))))))

open RegularExpression in
theorem dt_ends :
    ∀ p ∈ date_time_pattern.matches',
      ∃ u c, p = u ++ [c] ∧ isPySpace c = true ∧
        (∃ v, u = v ++ ['A', 'M'] ∨ u = v ++ ['P', 'M']) := by
  intro p hp
  simp only [date_time_pattern] at hp
  rw [matches'_mul, Language.mem_mul] at hp
  rcases hp with ⟨s, hs, t, ht, rfl⟩
  rw [matches'_mul, Language.mem_mul] at ht
  rcases ht with ⟨m, hm, w, hw, rfl⟩
  rcases (anyOf_matches wsChars w).mp hw with ⟨c, hc, rfl⟩
  refine ⟨s ++ m, c, by rw [List.append_assoc], (mem_wsChars_iff c).mp hc, ?_⟩
  have hsE := stampCore_ends s hs
  have hmE : m = [] ∨ ∃ v, m = v ++ ['A', 'M'] ∨ m = v ++ ['P', 'M'] := by
    rw [matches'_star, Language.mem_kstar] at hm
    rcases hm with ⟨L, rfl, hL⟩
    have hE : ∀ y ∈ L, ∃ v, y = v ++ ['A', 'M'] ∨ y = v ++ ['P', 'M'] :=
      fun y hy => ends_mul _ _ stampCore_ends y (hL y hy)
    clear hL
    induction L with
    | nil => exact Or.inl rfl
    | cons y ys ih =>
      rcases ih (fun z hz => hE z (List.mem_cons_of_mem y hz)) with h | ⟨v, h | h⟩
      · rcases hE y (List.mem_cons_self y ys) with ⟨v, h' | h'⟩
        · exact Or.inr ⟨v, Or.inl (by simp only [List.flatten_cons, h, List.append_nil, h'])⟩
        · exact Or.inr ⟨v, Or.inr (by simp only [List.flatten_cons, h, List.append_nil, h'])⟩
      · exact Or.inr ⟨y ++ v, Or.inl (by simp only [List.flatten_cons, h, List.append_assoc])⟩
      · exact Or.inr ⟨y ++ v, Or.inr (by simp only [List.flatten_cons, h, List.append_assoc])⟩
  rcases hmE with rfl | ⟨v, h | h⟩
  · rcases hsE with ⟨v, h | h⟩
    · exact ⟨v, Or.inl (by rw [List.append_nil, h])⟩
    · exact ⟨v, Or.inr (by rw [List.append_nil, h])⟩
  · exact ⟨s ++ v, Or.inl (by rw [h, List.append_assoc])⟩
  · exact ⟨s ++ v, Or.inr (by rw [h, List.append_assoc])⟩

theorem hasMarkerWs_cons (x : Char) (t : List Char) (h : hasMarkerWs t = true) :
    hasMarkerWs (x :: t) = true := by
  match t with
  | [] => simp [hasMarkerWs] at h
  | [b] => simp [hasMarkerWs] at h
  | b :: c :: rest =>
    simp only [hasMarkerWs, Bool.or_eq_true]
    exact Or.inr h

theorem hasMarkerWs_of_marker (v : List Char) (a c : Char) (rest : List Char)
    (ha : a = 'A' ∨ a = 'P') (hc : isPySpace c = true) :
    hasMarkerWs (v ++ a :: 'M' :: c :: rest) = true := by
  induction v with
  | nil =>
    simp only [List.nil_append, hasMarkerWs, Bool.or_eq_true]
    refine Or.inl ?_
    rcases ha with rfl | rfl <;> simp [hc]
  | cons x v ih =>
    rw [List.cons_append]
    exact hasMarkerWs_cons x _ ih

theorem marker_of_isDateTimeLine (s : String) (h : isDateTimeLine s = true) :
    hasMarkerWs s.data = true := by
  rw [isDateTimeLine, matchPre_iff] at h
  rcases h with ⟨p, q, hpq, hp⟩
  rcases dt_ends p hp with ⟨u, c, rfl, hc, v, hv | hv⟩
  · rw [← hpq, hv]
    have : v ++ ['A', 'M'] ++ [c] ++ q = v ++ 'A' :: 'M' :: c :: q := by simp
    rw [this]
    exact hasMarkerWs_of_marker v 'A' c q (Or.inl rfl) hc
  · rw [← hpq, hv]
    have : v ++ ['P', 'M'] ++ [c] ++ q = v ++ 'P' :: 'M' :: c :: q := by simp
    rw [this]
    exact hasMarkerWs_of_marker v 'P' c q (Or.inr rfl) hc

open RegularExpression in
theorem alpha3_matches (x : List Char) :
    x ∈ alpha3.matches' ↔
      ∃ a b c, x = [a, b, c] ∧ a ∈ letterChars ∧ b ∈ letterChars ∧ c ∈ letterChars := by
  simp only [alpha3]
  rw [matches'_mul, Language.mem_mul]
  constructor
  · rintro ⟨p, hp, q, hq, rfl⟩
    rcases (anyOf_matches _ p).mp hp with ⟨a, ha, rfl⟩
    rw [matches'_mul, Language.mem_mul] at hq
    rcases hq with ⟨p2, hp2, q2, hq2, rfl⟩
    rcases (anyOf_matches _ p2).mp hp2 with ⟨b, hb, rfl⟩
    rcases (anyOf_matches _ q2).mp hq2 with ⟨c, hc, rfl⟩
    exact ⟨a, b, c, rfl, ha, hb, hc⟩
  · rintro ⟨a, b, c, rfl, ha, hb, hc⟩
    refine ⟨[a], (anyOf_matches _ _).mpr ⟨a, ha, rfl⟩, [b, c], ?_, rfl⟩
    rw [matches'_mul, Language.mem_mul]
    exact ⟨[b], (anyOf_matches _ _).mpr ⟨b, hb, rfl⟩,
      [c], (anyOf_matches _ _).mpr ⟨c, hc, rfl⟩, rfl⟩

open RegularExpression in
theorem stampCore_head :
    ∀ p ∈ stampCore.matches',
      ∃ a b c rest, p = a :: b :: c :: ',' :: ' ' :: rest ∧
        a ∈ letterChars ∧ b ∈ letterChars ∧ c ∈ letterChars := by
  intro p hp
  simp only [stampCore] at hp
  rw [matches'_mul, Language.mem_mul] at hp
  rcases hp with ⟨q, hq, t, ht, rfl⟩
  rcases (alpha3_matches q).mp hq with ⟨a, b, c, rfl, ha, hb, hc⟩
  rw [matches'_mul, Language.mem_mul] at ht
  rcases ht with ⟨m, hm, t2, _, rfl⟩
  rw [litR_matches] at hm
  subst hm
  exact ⟨a, b, c, t2, rfl, ha, hb, hc⟩

open RegularExpression in
theorem dt_head :
    ∀ p ∈ date_time_pattern.matches',
      ∃ a b c rest, p = a :: b :: c :: ',' :: ' ' :: rest ∧
        a ∈ letterChars ∧ b ∈ letterChars ∧ c ∈ letterChars := by
  intro p hp
  simp only [date_time_pattern] at hp
  rw [matches'_mul, Language.mem_mul] at hp
  rcases hp with ⟨s, hs, t, _, rfl⟩
  rcases stampCore_head s hs with ⟨a, b, c, rest, rfl, ha, hb, hc⟩
  exact ⟨a, b, c, rest ++ t, by simp, ha, hb, hc⟩

open RegularExpression in
theorem field_pattern_matches (p : List Char) :
    p ∈ field_name_pattern.matches' ↔
      ∃ w, p = w ++ " (Athletic Field Use)".data ∧ w ≠ [] ∧
        ∀ c ∈ w, c ∈ letterChars ++ wsChars := by
  simp only [field_name_pattern]
  rw [matches'_mul, Language.mem_mul]
  constructor
  · rintro ⟨w, hw, b, hb, rfl⟩
    rw [rep1_matches] at hw
    rw [litR_matches] at hb
    subst hb
    exact ⟨w, rfl, hw.1, hw.2⟩
  · rintro ⟨w, rfl, hne, hcls⟩
    exact ⟨w, (rep1_matches _ _).mpr ⟨hne, hcls⟩, _, (litR_matches _ _).mpr rfl, rfl⟩

theorem field_date_clash :
    ∀ (w : List Char) (X : List Char) (a b c : Char) (Y : List Char),
      w ≠ [] → (∀ d ∈ w, d ∈ letterChars ++ wsChars) →
      a ∈ letterChars → b ∈ letterChars → c ∈ letterChars →
      w ++ ' ' :: X = a :: b :: c :: ',' :: ' ' :: Y → False := by
  intro w X a b c Y hne hcls ha hb hc h
  cases w with
  | nil => exact hne rfl
  | cons w0 t =>
    rw [List.cons_append] at h
    injection h with h0 h
    cases t with
    | nil =>
      rw [List.nil_append] at h
      injection h with h1 h
      rw [← h1] at hb
      exact absurd hb (by decide)
    | cons w1 t =>
      rw [List.cons_append] at h
      injection h with h1 h
      cases t with
      | nil =>
        rw [List.nil_append] at h
        injection h with h2 h
        rw [← h2] at hc
        exact absurd hc (by decide)
      | cons w2 t =>
        rw [List.cons_append] at h
        injection h with h2 h
        cases t with
        | nil =>
          rw [List.nil_append] at h
          injection h with h3 h
          exact absurd h3 (by decide)
        | cons w3 t =>
          rw [List.cons_append] at h
          injection h with h3 h
          have : w3 ∈ w0 :: w1 :: w2 :: w3 :: t := by simp
          have hw3 := hcls w3 this
          rw [h3] at hw3
          exact absurd hw3 (by decide)

/-- The two patterns are structurally disjoint: a line matching the field-name
pattern cannot match the date/time pattern (and hence always reaches the
`elif` branch of the scanner). -/
theorem field_not_date (s : String) (h : isFieldNameLine s = true) :
    isDateTimeLine s = false := by
  by_contra hcon
  rw [Bool.not_eq_false] at hcon
  rw [isFieldNameLine, matchPre_iff] at h
  rw [isDateTimeLine, matchPre_iff] at hcon
  rcases h with ⟨p1, q1, hpq1, hp1⟩
  rcases hcon with ⟨p2, q2, hpq2, hp2⟩
  rcases (field_pattern_matches p1).mp hp1 with ⟨w, rfl, hne, hcls⟩
  rcases dt_head p2 hp2 with ⟨a, b, c, rest, rfl, ha, hb, hc⟩
  rw [← hpq2] at hpq1
  have hlit : " (Athletic Field Use)".data = ' ' :: "(Athletic Field Use)".data := rfl
  rw [hlit] at hpq1
  refine field_date_clash w ("(Athletic Field Use)".data ++ q1) a b c (rest ++ q2)
    hne hcls ha hb hc ?_
  simpa using hpq1

/-! ### Behaviour of one scanner iteration -/

theorem isDateTimeLine_empty : isDateTimeLine "" = false := by decide

theorem isFieldNameLine_empty : isFieldNameLine "" = false := by decide

theorem stepLine_skip (ml : Int) (st : ExtractState) (l : String)
    (hd : isDateTimeLine (pyStrip l) = false) (hf : isFieldNameLine (pyStrip l) = false) :
    stepLine ml st l = .ok st := by
  unfold stepLine
  by_cases h0 : pyStrip l = ""
  · simp [h0]
  · simp [h0, hd, hf]

theorem stepLine_orphan (ml : Int) (st : ExtractState) (l : String)
    (hd : isDateTimeLine (pyStrip l) = true)
    (hlen : (st.date_time_slots.length : Int) < ml)
    (hcur : st.current_field_name = none) :
    stepLine ml st l = .error .keyError := by
  unfold stepLine
  have h0 : ¬ pyStrip l = "" := by
    intro h; rw [h, isDateTimeLine_empty] at hd; exact Bool.false_ne_true hd
  simp [h0, hd, hlen, hcur]

theorem stepLine_slot (ml : Int) (st : ExtractState) (l : String) (k : String)
    (v : List String)
    (hd : isDateTimeLine (pyStrip l) = true)
    (hlen : (st.date_time_slots.length : Int) < ml)
    (hcur : st.current_field_name = some k)
    (hlk : lookupKey st.field_date_time_slots k = some v) :
    stepLine ml st l = .ok { st with
      date_time_slots := st.date_time_slots ++ [pyStrip l],
      field_date_time_slots := setKey st.field_date_time_slots k (v ++ [pyStrip l]) } := by
  unfold stepLine
  have h0 : ¬ pyStrip l = "" := by
    intro h; rw [h, isDateTimeLine_empty] at hd; exact Bool.false_ne_true hd
  simp [h0, hd, hlen, hcur, hlk]

theorem stepLine_field (ml : Int) (st : ExtractState) (l : String)
    (hf : isFieldNameLine (pyStrip l) = true)
    (hlen : (st.field_names.length : Int) < ml) :
    stepLine ml st l = .ok { st with
      field_names := st.field_names ++ [pyStrip l],
      field_date_time_slots := setKey st.field_date_time_slots (pyStrip l) [],
      current_field_name := some (pyStrip l) } := by
  unfold stepLine
  have h0 : ¬ pyStrip l = "" := by
    intro h; rw [h, isFieldNameLine_empty] at hf; exact Bool.false_ne_true hf
  have hd := field_not_date _ hf
  simp [h0, hd, hf, hlen]

theorem stepLine_field_capped (ml : Int) (st : ExtractState) (l : String)
    (hf : isFieldNameLine (pyStrip l) = true)
    (hlen : ¬ (st.field_names.length : Int) < ml) :
    stepLine ml st l = .ok st := by
  unfold stepLine
  by_cases h0 : pyStrip l = ""
  · simp [h0]
  · have hd := field_not_date _ hf
    simp [h0, hd, hf, hlen]

theorem date_not_field (s : String) (h : isDateTimeLine s = true) :
    isFieldNameLine s = false := by
  cases hf : isFieldNameLine s with
  | false => rfl
  | true => rw [field_not_date s hf] at h; exact absurd h (by decide)

theorem stepLine_date_capped (ml : Int) (st : ExtractState) (l : String)
    (hd : isDateTimeLine (pyStrip l) = true)
    (hlen : ¬ (st.date_time_slots.length : Int) < ml) :
    stepLine ml st l = .ok st := by
  unfold stepLine
  have h0 : ¬ pyStrip l = "" := by
    intro h; rw [h, isDateTimeLine_empty] at hd; exact Bool.false_ne_true hd
  have hf := date_not_field _ hd
  simp [h0, hd, hf, hlen]

theorem stepLine_slot_nokey (ml : Int) (st : ExtractState) (l : String) (k : String)
    (hd : isDateTimeLine (pyStrip l) = true)
    (hlen : (st.date_time_slots.length : Int) < ml)
    (hcur : st.current_field_name = some k)
    (hlk : lookupKey st.field_date_time_slots k = none) :
    stepLine ml st l = .error .keyError := by
  unfold stepLine
  have h0 : ¬ pyStrip l = "" := by
    intro h; rw [h, isDateTimeLine_empty] at hd; exact Bool.false_ne_true hd
  simp [h0, hd, hlen, hcur, hlk]

/-- Exhaustive description of the successful outcomes of one iteration. -/
theorem stepLine_cases (ml : Int) (st : ExtractState) (l : String) (st' : ExtractState)
    (h : stepLine ml st l = .ok st') :
    st' = st ∨
    ((st.date_time_slots.length : Int) < ml ∧
      ∃ k v, st.current_field_name = some k ∧
        lookupKey st.field_date_time_slots k = some v ∧
        st' = { st with
          date_time_slots := st.date_time_slots ++ [pyStrip l],
          field_date_time_slots := setKey st.field_date_time_slots k (v ++ [pyStrip l]) }) ∨
    ((st.field_names.length : Int) < ml ∧
      st' = { st with
        field_names := st.field_names ++ [pyStrip l],
        field_date_time_slots := setKey st.field_date_time_slots (pyStrip l) [],
        current_field_name := some (pyStrip l) }) := by
  cases hd : isDateTimeLine (pyStrip l) with
  | true =>
    by_cases hlen : (st.date_time_slots.length : Int) < ml
    · cases hcur : st.current_field_name with
      | none =>
        rw [stepLine_orphan ml st l hd hlen hcur] at h
        exact absurd h (by simp)
      | some k =>
        cases hlk : lookupKey st.field_date_time_slots k with
        | none =>
          rw [stepLine_slot_nokey ml st l k hd hlen hcur hlk] at h
          exact absurd h (by simp)
        | some v =>
          rw [stepLine_slot ml st l k v hd hlen hcur hlk, hcur] at h
          exact Or.inr (Or.inl ⟨hlen, k, v, rfl, hlk, (Except.ok.inj h).symm⟩)
    · rw [stepLine_date_capped ml st l hd hlen] at h
      exact Or.inl (Except.ok.inj h).symm
  | false =>
    cases hf : isFieldNameLine (pyStrip l) with
    | true =>
      by_cases hlen : (st.field_names.length : Int) < ml
      · rw [stepLine_field ml st l hf hlen] at h
        exact Or.inr (Or.inr ⟨hlen, (Except.ok.inj h).symm⟩)
      · rw [stepLine_field_capped ml st l hf hlen] at h
        exact Or.inl (Except.ok.inj h).symm
    | false =>
      rw [stepLine_skip ml st l hd hf] at h
      exact Or.inl (Except.ok.inj h).symm

theorem mem_setKey (d : List (String × List String)) (k : String) (v : List String) :
    ∀ kv ∈ setKey d k v, kv ∈ d ∨ kv = (k, v) := by
  induction d with
  | nil =>
    intro kv hkv
    simp only [setKey, List.mem_singleton] at hkv
    exact Or.inr hkv
  | cons p t ih =>
    intro kv hkv
    obtain ⟨k', v'⟩ := p
    simp only [setKey] at hkv
    by_cases hk : k' = k
    · rw [if_pos hk] at hkv
      rcases List.mem_cons.mp hkv with h | h
      · exact Or.inr h
      · exact Or.inl (List.mem_cons_of_mem _ h)
    · rw [if_neg hk] at hkv
      rcases List.mem_cons.mp hkv with h | h
      · exact Or.inl (h ▸ List.mem_cons_self _ _)
      · rcases ih kv h with h' | h'
        · exact Or.inl (List.mem_cons_of_mem _ h')
        · exact Or.inr h'

theorem lookupKey_mem (d : List (String × List String)) (k : String) (v : List String)
    (h : lookupKey d k = some v) : (k, v) ∈ d := by
  induction d with
  | nil => simp [lookupKey] at h
  | cons p t ih =>
    obtain ⟨k', v'⟩ := p
    simp only [lookupKey] at h
    by_cases hk : k' = k
    · rw [if_pos hk] at h
      subst hk
      rw [Option.some.injEq] at h
      subst h
      exact List.mem_cons_self _ _
    · rw [if_neg hk] at h
      exact List.mem_cons_of_mem _ (ih h)

/-! ### The cap invariant and the per-field sublist invariant -/

theorem runLines_caps (ml : Int) (ls : List String) :
    ∀ st st', runLines ml st ls = .ok st' →
      (st.date_time_slots.length : Int) ≤ ml →
      (st.field_names.length : Int) ≤ ml →
      (st'.date_time_slots.length : Int) ≤ ml ∧ (st'.field_names.length : Int) ≤ ml := by
  induction ls with
  | nil =>
    intro st st' h h1 h2
    rw [runLines] at h
    rw [← Except.ok.inj h]
    exact ⟨h1, h2⟩
  | cons l ls ih =>
    intro st st' h h1 h2
    rw [runLines] at h
    cases hstep : stepLine ml st l with
    | error e => rw [hstep] at h; exact absurd h (by simp)
    | ok st1 =>
      rw [hstep] at h
      rcases stepLine_cases ml st l st1 hstep with rfl | ⟨hlen, k, v, _, _, rfl⟩ | ⟨hlen, rfl⟩
      · exact ih _ st' h h1 h2
      · refine ih _ st' h ?_ h2
        simp only [List.length_append, List.length_singleton]
        push_cast
        omega
      · refine ih _ st' h h1 ?_
        simp only [List.length_append, List.length_singleton]
        push_cast
        omega

theorem runLines_sublist (ml : Int) (ls : List String) :
    ∀ st st', runLines ml st ls = .ok st' →
      (∀ kv ∈ st.field_date_time_slots, List.Sublist kv.2 st.date_time_slots) →
      ∀ kv ∈ st'.field_date_time_slots, List.Sublist kv.2 st'.date_time_slots := by
  induction ls with
  | nil =>
    intro st st' h hinv
    rw [runLines] at h
    rw [← Except.ok.inj h]
    exact hinv
  | cons l ls ih =>
    intro st st' h hinv
    rw [runLines] at h
    cases hstep : stepLine ml st l with
    | error e => rw [hstep] at h; exact absurd h (by simp)
    | ok st1 =>
      rw [hstep] at h
      rcases stepLine_cases ml st l st1 hstep with rfl | ⟨_, k, v, _, hlk, rfl⟩ | ⟨_, rfl⟩
      · exact ih _ st' h hinv
      · refine ih _ st' h ?_
        intro kv hkv
        simp only at hkv ⊢
        rcases mem_setKey _ _ _ kv hkv with hm | rfl
        · exact List.Sublist.trans (hinv kv hm) (List.sublist_append_left _ _)
        · exact List.Sublist.append (hinv (k, v) (lookupKey_mem _ _ _ hlk)) (List.Sublist.refl _)
      · refine ih _ st' h ?_
        intro kv hkv
        simp only at hkv ⊢
        rcases mem_setKey _ _ _ kv hkv with hm | rfl
        · exact hinv kv hm
        · exact List.nil_sublist _

/-! ### A slot line before any field-name line -/

theorem runLines_orphan (ml : Int) (hml : 0 < ml) :
    ∀ (pre : List String) (l0 : String) (post : List String),
      isDateTimeLine (pyStrip l0) = true →
      (∀ l' ∈ pre, isFieldNameLine (pyStrip l') = false) →
      runLines ml ⟨none, [], [], []⟩ (pre ++ l0 :: post) = .error .keyError := by
  intro pre
  induction pre with
  | nil =>
    intro l0 post hd _
    rw [List.nil_append, runLines,
      stepLine_orphan ml ⟨none, [], [], []⟩ l0 hd (by simpa using hml) rfl]
  | cons x pre ih =>
    intro l0 post hd hpre
    rw [List.cons_append, runLines]
    cases hdx : isDateTimeLine (pyStrip x) with
    | true =>
      rw [stepLine_orphan ml ⟨none, [], [], []⟩ x hdx (by simpa using hml) rfl]
    | false =>
      have hfx : isFieldNameLine (pyStrip x) = false := hpre x (List.mem_cons_self _ _)
      rw [stepLine_skip ml ⟨none, [], [], []⟩ x hdx hfx]
      exact ih l0 post hd (fun l' hl' => hpre l' (List.mem_cons_of_mem _ hl'))

/-! ### Splitting lemmas for the row parser -/

theorem splitOnChar_ne_nil (sep : Char) (l : List Char) : splitOnChar sep l ≠ [] := by
  induction l with
  | nil => simp [splitOnChar]
  | cons c cs ih =>
    rw [splitOnChar]
    by_cases h : c = sep
    · simp [h]
    · rw [if_neg h]
      cases hr : splitOnChar sep cs with
      | nil => exact absurd hr ih
      | cons r rs => simp

theorem splitOnChar_not_mem (sep : Char) (l : List Char) (h : ∀ x ∈ l, ¬ x = sep) :
    splitOnChar sep l = [l] := by
  induction l with
  | nil => rfl
  | cons c cs ih =>
    rw [splitOnChar, if_neg (h c (List.mem_cons_self _ _)),
      ih (fun x hx => h x (List.mem_cons_of_mem _ hx))]

theorem splitOnChar_append_sep (sep : Char) (xs ys : List Char)
    (h : ∀ x ∈ xs, ¬ x = sep) :
    splitOnChar sep (xs ++ sep :: ys) = xs :: splitOnChar sep ys := by
  induction xs with
  | nil => rw [List.nil_append, splitOnChar, if_pos rfl]
  | cons c cs ih =>
    rw [List.cons_append, splitOnChar, if_neg (h c (List.mem_cons_self _ _)),
      ih (fun x hx => h x (List.mem_cons_of_mem _ hx))]

theorem list_len4 {α : Type} (l : List α) (h : l.length = 4) :
    ∃ a b c d, l = [a, b, c, d] := by
  match l, h with
  | [a, b, c, d], _ => exact ⟨a, b, c, d, rfl⟩

theorem extract_date_ok (e1 e2 : String) :
    ∃ s, extract_date e1 e2 = .ok s := by
  unfold extract_date
  cases hr : splitOnChar ' ' (pyStrip e2).data with
  | nil => exact absurd hr (splitOnChar_ne_nil _ _)
  | cons r rs =>
    refine ⟨pyStrip e1 ++ ", " ++ ⟨r⟩, ?_⟩
    simp [pySplit, hr, pyGet]

/-! ### Evaluating `int()` on digit tokens -/

theorem all_contains_mem (l : List Char) (h : l.all digitChars.contains = true) :
    ∀ c ∈ l, c ∈ digitChars := by
  intro c hc
  have := List.all_eq_true.mp h c hc
  simpa using this

theorem stripChars_eq_self (l : List Char) (h : ∀ c ∈ l, isPySpace c = false) :
    stripChars l = l := by
  unfold stripChars
  have h1 : l.dropWhile isPySpace = l := by
    cases l with
    | nil => rfl
    | cons c cs =>
      rw [List.dropWhile_cons, h c (List.mem_cons_self _ _)]
      simp
  rw [h1]
  have h2 : l.reverse.dropWhile isPySpace = l.reverse := by
    cases hr : l.reverse with
    | nil => rfl
    | cons c cs =>
      have hcl : c ∈ l := by
        rw [← List.mem_reverse, hr]
        exact List.mem_cons_self _ _
      rw [List.dropWhile_cons, h c hcl]
      simp
  rw [h2, List.reverse_reverse]

theorem pyInt_digits (Hd : List Char) (hne : Hd ≠ [])
    (hdig : Hd.all digitChars.contains = true) :
    pyInt ⟨Hd⟩ = .ok (digitsToNat Hd : Int) := by
  have hmem := all_contains_mem Hd hdig
  have hnws : ∀ c ∈ digitChars, isPySpace c = false := by decide
  have hnp : ∀ c ∈ digitChars, ¬ c = '+' := by decide
  have hnm : ∀ c ∈ digitChars, ¬ c = '-' := by decide
  have hstrip : stripChars Hd = Hd :=
    stripChars_eq_self Hd (fun c hc => hnws c (hmem c hc))
  unfold pyInt
  cases Hd with
  | nil => exact absurd rfl hne
  | cons c rest =>
    have hc := hmem c (List.mem_cons_self _ _)
    have hplus : ¬ c = '+' := hnp c hc
    have hminus : ¬ c = '-' := hnm c hc
    simp only [show (String.mk (c :: rest)).data = c :: rest from rfl, hstrip]
    rw [if_neg hplus, if_neg hminus]
    unfold pyIntDigits
    rw [if_pos (by simp [hdig])]
    rfl

/-- Reduction of `Except` do-notation: binding a success. -/
theorem exc_bind_ok {α β : Type} (a : α) (f : α → Except PyErr β) :
    (Except.ok a : Except PyErr α) >>= f = f a := rfl

/-- Reduction of `Except` do-notation: `pure` is `ok`. -/
theorem exc_pure {α : Type} (a : α) : (pure a : Except PyErr α) = Except.ok a := rfl

/-- Reduction of `Except` do-notation: binding a failure. -/
theorem exc_bind_error {α β : Type} (e : PyErr) (f : α → Except PyErr β) :
    (Except.error e : Except PyErr α) >>= f = Except.error e := rfl

/-- Claim C4: for a timestamp fragment whose whitespace tokens are
`[year, "H:MM", period]` (hour a nonempty digit token, minutes without a
further colon), `extract_time` returns the `H:MM` token with 12 added to the
hour when the period token is `"PM"` — with no wraparound, so hour 12 yields
24 — and returns the token unchanged when the period is `"AM"` (no midnight
special case). -/
theorem C4_extract_time (elm y t p : String) (Hd Md : List Char)
    (hsplit : pySplit (pyStrip elm) ' ' = [y, t, p])
    (ht : t.data = Hd ++ ':' :: Md)
    (hne : Hd ≠ [])
    (hdig : Hd.all digitChars.contains = true)
    (hM : ∀ c ∈ Md, ¬ c = ':') :
    (p = "PM" →
      extract_time elm = .ok (toString ((digitsToNat Hd : Int) + 12) ++ ":" ++ ⟨Md⟩)) ∧
    (p = "AM" → extract_time elm = .ok t) := by
  have hHcolon : ∀ x ∈ Hd, ¬ x = ':' := by
    have hd10 : ∀ c ∈ digitChars, ¬ c = ':' := by decide
    exact fun x hx => hd10 x (all_contains_mem Hd hdig x hx)
  have htp : pySplit t ':' = [(⟨Hd⟩ : String), (⟨Md⟩ : String)] := by
    rw [pySplit, ht, splitOnChar_append_sep ':' Hd Md hHcolon, splitOnChar_not_mem ':' Md hM]
    rfl
  have hpi := pyInt_digits Hd hne hdig
  constructor
  · rintro rfl
    simp only [extract_time, hsplit, pyGet, List.getElem?_cons_succ, List.getElem?_cons_zero,
      exc_bind_ok, exc_pure, htp, hpi, reduceIte]
  · rintro rfl
    simp only [extract_time, hsplit, pyGet, List.getElem?_cons_succ, List.getElem?_cons_zero,
      exc_bind_ok, exc_pure]
    rw [if_neg (show ¬ ("AM" : String) = "PM" by decide)]

/-- Claim C4 witness: `"12:30 PM"` becomes `"24:30"` (no wraparound) and
`"12:30 AM"` stays `"12:30"`. -/
theorem C4_witness :
    extract_time " 2025 12:30 PM" = .ok "24:30" ∧
    extract_time " 2025 12:30 AM" = .ok "12:30" := by
  constructor
  · have h := (C4_extract_time " 2025 12:30 PM" "2025" "12:30" "PM" "12".data "30".data
      (by decide) (by decide) (by decide) (by decide) (by decide)).1 rfl
    exact h.trans (by decide)
  · exact (C4_extract_time " 2025 12:30 AM" "2025" "12:30" "AM" "12".data "30".data
      (by decide) (by decide) (by decide) (by decide) (by decide)).2 rfl

/-- Claim C1 (counterexample): on the spec's round-trip slot line,
`parse_spreadsheet_row` does not return the claimed record — splitting the
line on `","` puts the end-stamp month/day fragment `" Dec 6"` at index 4, so
the parse raises instead. -/
theorem C1_counterexample :
    parse_spreadsheet_row "Sat, Dec 6, 2025 8:00 AM, Sat, Dec 6, 2025 1:00 PM $25" "2025-11-01" ≠
      .ok ⟨"Sat", "Dec 6, 2025", "8:00", "13:00", "$25", "2025-11-01"⟩ := by decide

/-- Claim C1 (amended): on the spec's round-trip slot line,
`parse_spreadsheet_row` raises `IndexError` (element 4 is `" Dec 6"`, whose
whitespace split has no index-2 token for `extract_time`). -/
theorem C1_parse_row_raises :
    parse_spreadsheet_row "Sat, Dec 6, 2025 8:00 AM, Sat, Dec 6, 2025 1:00 PM $25" "2025-11-01" =
      .error .indexError := by decide

/-- Claim C2 (counterexample): the per-category caps do not hold for every
integer `max_length` — with `max_length = -1` and the empty document the
result lists are empty yet `0 ≤ -1` fails. -/
theorem C2_counterexample :
    ¬ (∀ (D : String) (ml : Int) (res : ExtractionResult),
        _extract_basic_summary D ml = .ok res →
        (res.date_time_slots.length : Int) ≤ ml ∧ (res.field_names.length : Int) ≤ ml) := by
  intro h
  have h2 := h "" (-1) ⟨[], [], []⟩ (by decide)
  exact absurd h2.1 (by decide)

/-- Claim C2 (amended): for every document and every non-negative
`max_length`, a successful extraction satisfies both caps:
`len(date_time_slots) ≤ max_length` and `len(field_names) ≤ max_length`. -/
theorem C2_caps (D : String) (ml : Int) (h0 : 0 ≤ ml) (res : ExtractionResult)
    (h : _extract_basic_summary D ml = .ok res) :
    (res.date_time_slots.length : Int) ≤ ml ∧ (res.field_names.length : Int) ≤ ml := by
  unfold _extract_basic_summary at h
  cases hr : runLines ml ⟨none, [], [], []⟩ (pySplit D '\n') with
  | error e => rw [hr] at h; exact absurd h (by simp)
  | ok st =>
    rw [hr] at h
    have hc := runLines_caps ml (pySplit D '\n') ⟨none, [], [], []⟩ st hr
      (by simpa using h0) (by simpa using h0)
    rw [← Except.ok.inj h]
    exact hc

/-- Claim C2 witness at the empty document with cap 0. -/
theorem C2_witness :
    _extract_basic_summary "" 0 = .ok ⟨[], [], []⟩ ∧
    (((⟨[], [], []⟩ : ExtractionResult)).date_time_slots.length : Int) ≤ 0 ∧
    (((⟨[], [], []⟩ : ExtractionResult)).field_names.length : Int) ≤ 0 :=
  ⟨by decide, C2_caps "" 0 (by decide) ⟨[], [], []⟩ (by decide)⟩

/-- Claim C3: if a date/time-slot line occurs before any field-name line
(and the slot cap is positive so the branch is taken), the extractor raises
`KeyError`: the current field name is still `None` when the slot is
recorded. -/
theorem C3_orphan_keyerror (text : String) (ml : Int) (pre post : List String) (l0 : String)
    (hsplit : pySplit text '\n' = pre ++ l0 :: post)
    (hd : isDateTimeLine (pyStrip l0) = true)
    (hpre : ∀ l' ∈ pre, isFieldNameLine (pyStrip l') = false)
    (hml : 0 < ml) :
    _extract_basic_summary text ml = .error .keyError := by
  unfold _extract_basic_summary
  rw [hsplit, runLines_orphan ml hml pre l0 post hd hpre]

/-- Claim C3 witness: a document that is a single slot line. -/
theorem C3_witness : _extract_basic_summary "Sat, Dec 6, 2025 8:00 AM x" 1 = .error .keyError :=
  C3_orphan_keyerror "Sat, Dec 6, 2025 8:00 AM x" 1 [] [] "Sat, Dec 6, 2025 8:00 AM x"
    (by decide) (by decide) (by simp) (by decide)

/-- Claim C5 (counterexample): `field_name_pattern` is not anchored at the
end of the line, so a line with text after `"(Athletic Field Use)"` is still
classified as a field name, contradicting the claimed
only-lines-ending-exactly-there characterization. -/
theorem C5_counterexample :
    isFieldNameLine "Foo (Athletic Field Use) note" = true ∧
    fieldExactPerSpec "Foo (Athletic Field Use) note" = false :=
  ⟨by decide, by decide⟩

/-- Claim C5 (amended): a line is classified as a field-name header iff some
PREFIX of it consists of one or more letters/whitespace characters followed by
the literal `" (Athletic Field Use)"`; arbitrary text may follow. -/
theorem C5_field_name_classification (s : String) :
    isFieldNameLine s = true ↔
      ∃ w rest, s.data = w ++ " (Athletic Field Use)".data ++ rest ∧ w ≠ [] ∧
        ∀ c ∈ w, c ∈ letterChars ++ wsChars := by
  rw [isFieldNameLine, matchPre_iff]
  constructor
  · rintro ⟨p, q, hpq, hp⟩
    rcases (field_pattern_matches p).mp hp with ⟨w, rfl, hne, hcls⟩
    exact ⟨w, q, by rw [← hpq, List.append_assoc], hne, hcls⟩
  · rintro ⟨w, rest, hs, hne, hcls⟩
    exact ⟨w ++ " (Athletic Field Use)".data, rest, by rw [hs, List.append_assoc],
      (field_pattern_matches _).mpr ⟨w, rfl, hne, hcls⟩⟩

/-- Claim C6 (counterexample): with `max_length = 1` the second field-name
line `"B (Athletic Field Use)"` is skipped entirely — it is neither appended,
nor registered in the dict, nor made current, and the following slot line is
still filed under `"A (Athletic Field Use)"`. -/
theorem C6_counterexample :
    _extract_basic_summary
        "A (Athletic Field Use)\nB (Athletic Field Use)\nSat, Dec 6, 2025 8:00 AM x" 1 =
      .ok ⟨["Sat, Dec 6, 2025 8:00 AM x"], ["A (Athletic Field Use)"],
           [("A (Athletic Field Use)", ["Sat, Dec 6, 2025 8:00 AM x"])]⟩ ∧
    lookupKey [("A (Athletic Field Use)", ["Sat, Dec 6, 2025 8:00 AM x"])]
      "B (Athletic Field Use)" = none :=
  ⟨by decide, by decide⟩

/-- Claim C6 (amended): the `len(field_names) < max_length` test is part of
the `elif` condition and so gates the whole block: under the cap a field-name
line is appended AND registered AND becomes current; at the cap it does none
of the three. -/
theorem C6_cap_gates_field_branch (ml : Int) (st : ExtractState) (l : String)
    (hf : isFieldNameLine (pyStrip l) = true) :
    ((st.field_names.length : Int) < ml →
      stepLine ml st l = .ok { st with
        field_names := st.field_names ++ [pyStrip l],
        field_date_time_slots := setKey st.field_date_time_slots (pyStrip l) [],
        current_field_name := some (pyStrip l) }) ∧
    (¬ (st.field_names.length : Int) < ml → stepLine ml st l = .ok st) :=
  ⟨fun hlen => stepLine_field ml st l hf hlen,
   fun hlen => stepLine_field_capped ml st l hf hlen⟩

/-- Claim C6 witness: the field branch under the cap and at the cap. -/
theorem C6_witness :
    stepLine 1 ⟨none, [], [], []⟩ "A (Athletic Field Use)" =
      .ok ⟨some "A (Athletic Field Use)", [("A (Athletic Field Use)", [])], [],
           ["A (Athletic Field Use)"]⟩ ∧
    stepLine 0 ⟨none, [], [], []⟩ "A (Athletic Field Use)" = .ok ⟨none, [], [], []⟩ := by
  constructor
  · have h := (C6_cap_gates_field_branch 1 ⟨none, [], [], []⟩ "A (Athletic Field Use)"
      (by decide)).1 (by decide)
    exact h.trans (by decide)
  · have h := (C6_cap_gates_field_branch 0 ⟨none, [], [], []⟩ "A (Athletic Field Use)"
      (by decide)).2 (by decide)
    exact h.trans (by decide)

/-- Claim C7: on every successful extraction, every per-field slot list is a
sublist (subsequence, same relative order) of the flat `date_time_slots`
list. -/
theorem C7_sublists (text : String) (ml : Int) (res : ExtractionResult)
    (h : _extract_basic_summary text ml = .ok res) :
    ∀ kv ∈ res.field_date_time_slots, List.Sublist kv.2 res.date_time_slots := by
  unfold _extract_basic_summary at h
  cases hr : runLines ml ⟨none, [], [], []⟩ (pySplit text '\n') with
  | error e => rw [hr] at h; exact absurd h (by simp)
  | ok st =>
    rw [hr] at h
    have hs := runLines_sublist ml (pySplit text '\n') ⟨none, [], [], []⟩ st hr
      (by intro kv hkv; exact absurd hkv (List.not_mem_nil kv))
    rw [← Except.ok.inj h]
    exact hs

/-- Claim C7 witness on a two-line document. -/
theorem C7_witness :
    _extract_basic_summary "A (Athletic Field Use)\nSat, Dec 6, 2025 8:00 AM x" 5 =
      .ok ⟨["Sat, Dec 6, 2025 8:00 AM x"], ["A (Athletic Field Use)"],
           [("A (Athletic Field Use)", ["Sat, Dec 6, 2025 8:00 AM x"])]⟩ ∧
    List.Sublist ["Sat, Dec 6, 2025 8:00 AM x"] ["Sat, Dec 6, 2025 8:00 AM x"] :=
  ⟨by decide,
   C7_sublists "A (Athletic Field Use)\nSat, Dec 6, 2025 8:00 AM x" 5
     ⟨["Sat, Dec 6, 2025 8:00 AM x"], ["A (Athletic Field Use)"],
      [("A (Athletic Field Use)", ["Sat, Dec 6, 2025 8:00 AM x"])]⟩
     (by decide)
     ("A (Athletic Field Use)", ["Sat, Dec 6, 2025 8:00 AM x"]) (by decide)⟩

/-- Claim C8 (counterexample): not every 4-element line raises an
index-out-of-range — the line `"a,b,x y PM,d"` has exactly 4 comma elements
but raises `ValueError` first, while converting the non-numeric hour token
`"y"` of its start-time fragment. -/
theorem C8_counterexample :
    (pySplit "a,b,x y PM,d" ',').length = 4 ∧
    parse_spreadsheet_row "a,b,x y PM,d" "" = .error .valueError :=
  ⟨by decide, by decide⟩

/-- Claim C8 (amended): every line whose split on `","` yields exactly 4
elements makes `parse_spreadsheet_row` raise (an `IndexError` at
`elements[4]`, unless the start-time fragment already raised during
`extract_time`) — it never returns a `ParsedRow`. -/
theorem C8_four_elements_raise (row_data issued_date : String)
    (h : (pySplit row_data ',').length = 4) :
    isError (parse_spreadsheet_row row_data issued_date) = true := by
  obtain ⟨a, b, c, d, he⟩ := list_len4 _ h
  obtain ⟨s0, hs0⟩ := extract_date_ok b c
  cases hext : extract_time c with
  | error e =>
    simp only [parse_spreadsheet_row, he, pyGet, List.getElem?_cons_succ,
      List.getElem?_cons_zero, exc_bind_ok, hs0, hext, exc_bind_error, isError]
  | ok s1 =>
    simp only [parse_spreadsheet_row, he, pyGet, List.getElem?_cons_succ,
      List.getElem?_cons_zero, List.getElem?_nil, exc_bind_ok, hs0, hext,
      exc_bind_error, isError]

/-- Claim C8 witness: a concrete 4-element line. -/
theorem C8_witness : isError (parse_spreadsheet_row "a,b,c,d" "") = true :=
  C8_four_elements_raise "a,b,c,d" "" (by decide)

/-! ### Single-key dict steps, used to run the scanner symbolically -/

theorem lookupKey_cons_self (k : String) (v : List String)
    (t : List (String × List String)) : lookupKey ((k, v) :: t) k = some v := by
  simp [lookupKey]

theorem lookupKey_cons_ne (k k' : String) (v : List String)
    (t : List (String × List String)) (h : ¬ k' = k) :
    lookupKey ((k', v) :: t) k = lookupKey t k := by
  simp [lookupKey, h]

theorem setKey_cons_self (k : String) (v v' : List String)
    (t : List (String × List String)) : setKey ((k, v') :: t) k v = (k, v) :: t := by
  simp [setKey]

theorem setKey_cons_ne (k k' : String) (v v' : List String)
    (t : List (String × List String)) (h : ¬ k' = k) :
    setKey ((k', v') :: t) k v = (k', v') :: setKey t k v := by
  simp [setKey, h]

theorem runLines_cons_ok (ml : Int) (st st' : ExtractState) (l : String)
    (ls : List String) (h : stepLine ml st l = .ok st') :
    runLines ml st (l :: ls) = runLines ml st' ls := by
  rw [runLines, h]

/-- Claim C9: a document whose lines are a field-name header, two slot lines,
a second distinct field-name header, and one slot line, extracted with
`max_length ≥ 3`, yields 2 field names, 3 flat slots, and a per-field dict
with exactly two keys holding 2 and 1 slots respectively (the result below is
the full record, from which those counts are read off). -/
theorem C9_two_fields_three_slots (text : String) (ml : Int) (l1 l2 l3 l4 l5 : String)
    (hsplit : pySplit text '\n' = [l1, l2, l3, l4, l5])
    (h1 : isFieldNameLine (pyStrip l1) = true)
    (h2 : isDateTimeLine (pyStrip l2) = true)
    (h3 : isDateTimeLine (pyStrip l3) = true)
    (h4 : isFieldNameLine (pyStrip l4) = true)
    (h5 : isDateTimeLine (pyStrip l5) = true)
    (hne : ¬ pyStrip l1 = pyStrip l4)
    (hml : 3 ≤ ml) :
    _extract_basic_summary text ml =
      .ok ⟨[pyStrip l2, pyStrip l3, pyStrip l5], [pyStrip l1, pyStrip l4],
           [(pyStrip l1, [pyStrip l2, pyStrip l3]), (pyStrip l4, [pyStrip l5])]⟩ := by
  have hml0 : ((0 : Nat) : Int) < ml := by omega
  have hml1 : ((1 : Nat) : Int) < ml := by omega
  have hml2 : ((2 : Nat) : Int) < ml := by omega
  have e1 : stepLine ml ⟨none, [], [], []⟩ l1 =
      .ok ⟨some (pyStrip l1), [(pyStrip l1, [])], [], [pyStrip l1]⟩ := by
    rw [stepLine_field ml ⟨none, [], [], []⟩ l1 h1 (by simpa using hml0)]
    rfl
  have e2 : stepLine ml ⟨some (pyStrip l1), [(pyStrip l1, [])], [], [pyStrip l1]⟩ l2 =
      .ok ⟨some (pyStrip l1), [(pyStrip l1, [pyStrip l2])], [pyStrip l2], [pyStrip l1]⟩ := by
    rw [stepLine_slot ml _ l2 (pyStrip l1) [] h2 (by simpa using hml0) rfl
      (lookupKey_cons_self _ _ _)]
    rw [setKey_cons_self]
    rfl
  have e3 : stepLine ml
      ⟨some (pyStrip l1), [(pyStrip l1, [pyStrip l2])], [pyStrip l2], [pyStrip l1]⟩ l3 =
      .ok ⟨some (pyStrip l1), [(pyStrip l1, [pyStrip l2, pyStrip l3])],
           [pyStrip l2, pyStrip l3], [pyStrip l1]⟩ := by
    rw [stepLine_slot ml _ l3 (pyStrip l1) [pyStrip l2] h3 (by simpa using hml1) rfl
      (lookupKey_cons_self _ _ _)]
    rw [setKey_cons_self]
    rfl
  have e4 : stepLine ml
      ⟨some (pyStrip l1), [(pyStrip l1, [pyStrip l2, pyStrip l3])],
       [pyStrip l2, pyStrip l3], [pyStrip l1]⟩ l4 =
      .ok ⟨some (pyStrip l4),
           [(pyStrip l1, [pyStrip l2, pyStrip l3]), (pyStrip l4, [])],
           [pyStrip l2, pyStrip l3], [pyStrip l1, pyStrip l4]⟩ := by
    rw [stepLine_field ml _ l4 h4 (by simpa using hml1)]
    rw [setKey_cons_ne _ _ _ _ _ hne]
    rfl
  have e5 : stepLine ml
      ⟨some (pyStrip l4),
       [(pyStrip l1, [pyStrip l2, pyStrip l3]), (pyStrip l4, [])],
       [pyStrip l2, pyStrip l3], [pyStrip l1, pyStrip l4]⟩ l5 =
      .ok ⟨some (pyStrip l4),
           [(pyStrip l1, [pyStrip l2, pyStrip l3]), (pyStrip l4, [pyStrip l5])],
           [pyStrip l2, pyStrip l3, pyStrip l5], [pyStrip l1, pyStrip l4]⟩ := by
    rw [stepLine_slot ml _ l5 (pyStrip l4) [] h5 (by simpa using hml2) rfl
      (by rw [lookupKey_cons_ne _ _ _ _ hne, lookupKey_cons_self])]
    rw [setKey_cons_ne _ _ _ _ _ hne, setKey_cons_self]
    rfl
  unfold _extract_basic_summary
  rw [hsplit, runLines_cons_ok ml _ _ l1 _ e1, runLines_cons_ok ml _ _ l2 _ e2,
    runLines_cons_ok ml _ _ l3 _ e3, runLines_cons_ok ml _ _ l4 _ e4,
    runLines_cons_ok ml _ _ l5 _ e5, runLines]

/-- Claim C9 witness on a concrete five-line document. -/
theorem C9_witness :
    _extract_basic_summary
      "A (Athletic Field Use)\nSat, Dec 6, 2025 8:00 AM x\nSat, Dec 6, 2025 9:00 AM x\nB (Athletic Field Use)\nSat, Dec 6, 2025 10:00 AM x" 3 =
      .ok ⟨["Sat, Dec 6, 2025 8:00 AM x", "Sat, Dec 6, 2025 9:00 AM x",
            "Sat, Dec 6, 2025 10:00 AM x"],
           ["A (Athletic Field Use)", "B (Athletic Field Use)"],
           [("A (Athletic Field Use)",
             ["Sat, Dec 6, 2025 8:00 AM x", "Sat, Dec 6, 2025 9:00 AM x"]),
            ("B (Athletic Field Use)", ["Sat, Dec 6, 2025 10:00 AM x"])]⟩ := by
  have h := C9_two_fields_three_slots
    "A (Athletic Field Use)\nSat, Dec 6, 2025 8:00 AM x\nSat, Dec 6, 2025 9:00 AM x\nB (Athletic Field Use)\nSat, Dec 6, 2025 10:00 AM x"
    3 "A (Athletic Field Use)" "Sat, Dec 6, 2025 8:00 AM x" "Sat, Dec 6, 2025 9:00 AM x"
    "B (Athletic Field Use)" "Sat, Dec 6, 2025 10:00 AM x"
    (by decide) (by decide) (by decide) (by decide) (by decide) (by decide) (by decide)
    (by decide)
  exact h.trans (by decide)

/-- Claim C10 (counterexample): a line of two bare chained timestamps, whose
trimmed form ends immediately after its final `"PM"`, IS classified as a
date/time-slot line — the required trailing `\s` is found at the space
separating the two timestamps once the starred group matches zero times. -/
theorem C10_counterexample :
    pyStrip "Sat, Dec 6, 2025 8:00 AM Sat, Dec 6, 2025 1:00 PM" =
      "Sat, Dec 6, 2025 8:00 AM Sat, Dec 6, 2025 1:00 PM" ∧
    _extract_basic_summary
        "A (Athletic Field Use)\nSat, Dec 6, 2025 8:00 AM Sat, Dec 6, 2025 1:00 PM" 5 =
      .ok ⟨["Sat, Dec 6, 2025 8:00 AM Sat, Dec 6, 2025 1:00 PM"],
           ["A (Athletic Field Use)"],
           [("A (Athletic Field Use)",
             ["Sat, Dec 6, 2025 8:00 AM Sat, Dec 6, 2025 1:00 PM"])]⟩ :=
  ⟨by decide, by decide⟩

/-- Claim C10 (amended): a line whose trimmed form contains no occurrence of
`"AM"` or `"PM"` immediately followed by a whitespace character is never
classified as a date/time-slot line; in particular a single bare timestamp
(nothing after its only AM/PM marker) is invisible to the extractor, though a
bare chain of two or more timestamps is not. -/
theorem C10_no_marker_ws_not_slot (l : String)
    (h : hasMarkerWs (pyStrip l).data = false) :
    isDateTimeLine (pyStrip l) = false := by
  cases hd : isDateTimeLine (pyStrip l) with
  | false => rfl
  | true =>
    rw [marker_of_isDateTimeLine (pyStrip l) hd] at h
    exact absurd h (by decide)

/-- Claim C10 witness: a single bare timestamp line is not slot-classified. -/
theorem C10_witness : isDateTimeLine (pyStrip "Sat, Dec 6, 2025 8:00 AM") = false :=
  C10_no_marker_ws_not_slot "Sat, Dec 6, 2025 8:00 AM" (by decide)

/-- Claim C5 witness: the iff instantiated at a well-formed header line. -/
theorem C5_witness : isFieldNameLine "A (Athletic Field Use)" = true :=
  (C5_field_name_classification "A (Athletic Field Use)").mpr
    ⟨"A".data, [], by decide, by decide, by decide⟩
